import Mathlib

/-!
Verification of the voiceflow voice-transcription component.

The development shallowly embeds the transcript reconciler (the
`useVoiceTranscription` hook, in both its canonical and history-tracking
variants), the two recognition backends (`BrowserVoiceInputService` and
`OpenAIVoiceInputService`) and the backend-selection factory
(`createVoiceInputService`), and proves the documented properties about
them: full-mode accumulation, delta computation, restart capping,
deduplication, chunk gating, validation, cancellation, and the
permission-denied error path.
-/

namespace Voiceflow

/-- JS `a.includes(b)` on strings: substring containment. -/
def strContains (s sub : String) : Bool :=
  decide (sub.toList <:+: s.toList)

/-- One `(text, isFinal)` event delivered by a backend to the reconciler
(`onTranscription` callback argument). -/
structure SegEvent where
  text : String
  isFinal : Bool
deriving DecidableEq

/-- The consumer-selectable emission mode (`options.emitMode`). -/
inductive EmitMode
  | full
  | delta
  | segment
deriving DecidableEq

/-- The guarded emission `if (delta) onTranscriptionUpdate(delta, fin)`:
an empty string is falsy, so nothing is emitted for it. -/
def emitIf (d : String) (fin : Bool) : List SegEvent :=
  if d = "" then [] else [⟨d, fin⟩]

/-! ## Canonical reconciler: `src/useVoiceTranscription.ts` -/

/-- Observable state of the canonical `useVoiceTranscription` hook:
React state (`isRecording`, `transcription`, `interimTranscription`,
`error`, `permissionDenied`), the refs (`isCancelledRef`, `processedRef`,
`voiceServiceRef` abstracted to `hasService`), and logs of the
`onTranscriptionUpdate` / `onError` invocations. -/
structure HookState where
  isRecording : Bool
  transcription : String
  interimTranscription : String
  error : Option String
  permissionDenied : Bool
  cancelled : Bool
  processed : String
  hasService : Bool
  outputs : List SegEvent
  errorOutputs : List String
deriving DecidableEq

/-- The transcription callback installed by the canonical
`startRecording` (useVoiceTranscription.ts lines 46-76), acting on one
backend segment event. -/
def canonicalCallback (mode : EmitMode) (s : HookState) (e : SegEvent) : HookState :=
  if s.cancelled then s
  else
    let newText := e.text
    let prev := s.processed
    let delta := if mode = .delta then
        (if newText.startsWith prev then newText.drop prev.length else newText)
      else newText
    if e.isFinal then
      { s with
        transcription := newText
        interimTranscription := ""
        outputs := s.outputs ++ emitIf delta true
        processed := if mode = .delta then newText else s.processed }
    else
      { s with
        interimTranscription := newText
        outputs := s.outputs ++ emitIf delta false
        processed := if mode = .delta then newText else s.processed }

/-- Process a whole sequence of backend events through the canonical
callback. -/
def canonicalRun (mode : EmitMode) (s : HookState) (es : List SegEvent) : HookState :=
  es.foldl (canonicalCallback mode) s

/-- Hook state right after a successful canonical `startRecording`
with no delta baseline: buffers cleared, cancellation flag reset. -/
def canonicalInit : HookState :=
  { isRecording := true
    transcription := ""
    interimTranscription := ""
    error := none
    permissionDenied := false
    cancelled := false
    processed := ""
    hasService := true
    outputs := []
    errorOutputs := [] }

/-! ## Variant reconciler: the history-tracking `useVoiceTranscription` -/

/-- The joining separator the variant hook computes before appending a
segment: a single space when the accumulated text is nonempty, does not
already end with a space, and the new segment does not start with one. -/
def sepFor (h t : String) : String :=
  if 0 < h.length ∧ h.endsWith " " = false ∧ t.startsWith " " = false then " " else ""

/-- Append one segment to the accumulated history with the variant's
joining-space rule. -/
def joinSeg (h t : String) : String :=
  h ++ sepFor h t ++ t

/-- State of the variant `useVoiceTranscription` hook (the one with
`transcriptionHistoryRef`). -/
structure VHookState where
  history : String
  transcription : String
  interimTranscription : String
  processed : String
  cancelled : Bool
  outputs : List SegEvent
deriving DecidableEq

/-- The transcription callback of the variant hook (part_001 lines
50-117), acting on one backend segment event. -/
def variantCallback (mode : EmitMode) (s : VHookState) (e : SegEvent) : VHookState :=
  if s.cancelled then s
  else
    let currentFullText := s.history
    let separator := sepFor currentFullText e.text
    let effectiveFullText := currentFullText ++ separator ++ e.text
    let textToEmit := if mode = .segment then separator ++ e.text else effectiveFullText
    let prev := s.processed
    let delta := if mode = .delta then
        (if textToEmit.startsWith prev then textToEmit.drop prev.length else textToEmit)
      else textToEmit
    if e.isFinal then
      { s with
        history := currentFullText ++ separator ++ e.text
        transcription := currentFullText ++ separator ++ e.text
        interimTranscription := ""
        outputs := s.outputs ++
          (if mode = .segment then [⟨textToEmit, true⟩] else emitIf delta true)
        processed := if mode = .delta then textToEmit
          else if mode = .segment then "" else textToEmit }
    else
      { s with
        interimTranscription := e.text
        outputs := s.outputs ++
          (if mode = .segment then [⟨textToEmit, false⟩] else emitIf delta false)
        processed := if mode = .delta then textToEmit else s.processed }

/-- Process a whole sequence of backend events through the variant
callback. -/
def variantRun (mode : EmitMode) (s : VHookState) (es : List SegEvent) : VHookState :=
  es.foldl (variantCallback mode) s

/-- Variant hook state right after `startRecording` resets the
per-session buffers. -/
def variantInit : VHookState :=
  { history := ""
    transcription := ""
    interimTranscription := ""
    processed := ""
    cancelled := false
    outputs := [] }

/-- The space-joined concatenation of the final segments of an event
sequence, in order. -/
def joinAll (es : List SegEvent) : String :=
  (es.filter (·.isFinal)).foldl (fun h e => joinSeg h e.text) ""

/-! ## On-device backend: `BrowserVoiceInputService` -/

/-- State of `BrowserVoiceInputService` relevant to transcript
accumulation and restart handling. -/
structure BrowserState where
  isCurrentlyRecording : Bool
  fullTranscript : String
  restartCount : Nat
  language : String
deriving DecidableEq

/-- `maxRestarts` field of `BrowserVoiceInputService`. -/
def maxRestarts : Nat := 10

/-- The `onresult` loop: split the batch of recognition results (from
`event.resultIndex` on) into the concatenated interim and final
transcripts, in order. -/
def collectResults (rs : List (String × Bool)) : String × String :=
  rs.foldl
    (fun (acc : String × String) r =>
      if r.2 then (acc.1, acc.2 ++ r.1) else (acc.1 ++ r.1, acc.2))
    ("", "")

/-- The `onresult` handler: report `fullTranscript ++ interim` as
non-final when interim text is present, then append any finalized text
to `fullTranscript` and report it as final. Returns the new state and
the events handed to the reconciler callback. -/
def browserOnResult (s : BrowserState) (rs : List (String × Bool)) :
    BrowserState × List SegEvent :=
  let p := collectResults rs
  let evs := if p.1 = "" then [] else [SegEvent.mk (s.fullTranscript ++ p.1) false]
  if p.2 = "" then (s, evs)
  else
    ({ s with fullTranscript := s.fullTranscript ++ p.2 },
      evs ++ [SegEvent.mk (s.fullTranscript ++ p.2) true])

/-- A recognizer lifecycle event handled by `onerror` / `onend`. -/
inductive RecEvent
  | noSpeech
  | aborted
  | otherError
  | ended
deriving DecidableEq

/-- The restart decision of `onerror` / `onend`: `no-speech`, other
errors and natural `end` restart (incrementing `restartCount`) only
while still recording and strictly below `maxRestarts`; `aborted` never
restarts. Returns the new state and whether a restart was attempted. -/
def handleRecEvent (s : BrowserState) (e : RecEvent) : BrowserState × Bool :=
  match e with
  | .aborted => (s, false)
  | _ =>
    if s.isCurrentlyRecording = true ∧ s.restartCount < maxRestarts then
      ({ s with restartCount := s.restartCount + 1 }, true)
    else (s, false)

/-- Number of restarts attempted over a sequence of lifecycle events. -/
def countRestarts : BrowserState → List RecEvent → Nat
  | _, [] => 0
  | s, e :: es =>
    (if (handleRecEvent s e).2 then 1 else 0) + countRestarts (handleRecEvent s e).1 es

/-- `BrowserVoiceInputService.startRecording`: clears the transcript,
marks recording, resets the restart counter. -/
def browserStartRecording (s : BrowserState) : BrowserState :=
  { s with fullTranscript := "", isCurrentlyRecording := true, restartCount := 0 }

/-! ## Cloud backend: `OpenAIVoiceInputService` -/

/-- An audio chunk emitted by the recorder (`Blob`): its byte size, its
declared MIME type, and its leading bytes. -/
structure Blob where
  size : Nat
  mimeType : String
  bytes : List Nat
deriving DecidableEq

/-- State of `OpenAIVoiceInputService`, with instrumentation logs for
the API submissions, the transcription-callback invocations, and any
error raised to the caller. -/
structure OpenAIState where
  isCurrentlyRecording : Bool
  finalTranscription : String
  processedTranscriptions : List String
  chunkCounter : Nat
  language : String
  outputs : List SegEvent
  submissions : List Blob
  errors : List String
deriving DecidableEq

/-- `OpenAIVoiceInputService.startRecording` session reset: clears the
final transcription, the processed-transcript set and the chunk
counter, then marks recording. -/
def openAISessionStart (s : OpenAIState) : OpenAIState :=
  { s with
    finalTranscription := ""
    processedTranscriptions := []
    chunkCounter := 0
    isCurrentlyRecording := true }

/-- A fresh cloud-backend session. -/
def openAIInit : OpenAIState :=
  openAISessionStart
    { isCurrentlyRecording := false
      finalTranscription := ""
      processedTranscriptions := []
      chunkCounter := 0
      language := "auto"
      outputs := []
      submissions := []
      errors := [] }

/-- The transcript-handling tail of `tryOpenAITranscription`: a
transcript with nonempty trim that was not already processed is added
to the set, reported to the callback as non-final, and stored as the
final transcription; duplicates and blank transcripts are dropped. -/
def handleTranscript (s : OpenAIState) (t : String) : OpenAIState :=
  if t ≠ "" ∧ t.trim ≠ "" then
    if t ∈ s.processedTranscriptions then s
    else
      { s with
        processedTranscriptions := t :: s.processedTranscriptions
        outputs := s.outputs ++ [⟨t, false⟩]
        finalTranscription := t }
  else s

/-- The outcome of the `fetch` to the transcription API: a 2xx body, a
non-2xx response, or a thrown network error. -/
inductive FetchOutcome
  | ok (body : String)
  | httpError (status : Nat) (body : String)
  | threw
deriving DecidableEq

/-- `tryOpenAITranscription`: submit the chunk; a non-2xx response is
logged and dropped, a thrown error is caught, a 2xx body goes through
transcript handling. Nothing reaches the `errors` log. -/
def tryOpenAITranscription (s : OpenAIState) (b : Blob) (r : FetchOutcome) : OpenAIState :=
  let s1 := { s with submissions := s.submissions ++ [b] }
  match r with
  | .ok body => handleTranscript s1 body
  | .httpError _ _ => s1
  | .threw => s1

/-- The MIME-type test of `transcribeAudio`: the blob's declared type is
nonempty and mentions one of the containers webm, mp4 or wav. -/
def mimeRecognized (t : String) : Bool :=
  t ≠ "" && (strContains t "webm" || strContains t "mp4" || strContains t "wav")

/-- `transcribeAudio`: count the chunk, skip it when undersized
(< 10000 bytes) or of unrecognized type, and submit it to the API only
when it is the first chunk of the session; later chunks are left
unsubmitted. All failures are swallowed. -/
def transcribeAudio (s : OpenAIState) (b : Blob) (r : FetchOutcome) : OpenAIState :=
  let s1 := { s with chunkCounter := s.chunkCounter + 1 }
  if b.size < 10000 then s1
  else if mimeRecognized b.mimeType = false then s1
  else if s1.chunkCounter = 1 then tryOpenAITranscription s1 b r
  else s1

/-- Feed a sequence of emitted chunks (with their would-be API
outcomes) through `transcribeAudio`. -/
def runChunks (s : OpenAIState) (bs : List (Blob × FetchOutcome)) : OpenAIState :=
  bs.foldl (fun s p => transcribeAudio s p.1 p.2) s

/-- A chunk passing `transcribeAudio`'s validation. -/
def validChunk (b : Blob) : Bool :=
  10000 ≤ b.size && mimeRecognized b.mimeType

/-- `validateAudioBlob`: reject blobs under 1000 bytes, accept a WebM
magic number or an MP4 `ftyp` box in the first 32 bytes, and otherwise
fall back to accepting any blob over 8000 bytes. -/
def validateAudioBlob (b : Blob) : Bool :=
  if b.size < 1000 then false
  else
    let bytes := b.bytes.take 32
    if 4 ≤ bytes.length ∧ bytes.take 4 = [0x1A, 0x45, 0xDF, 0xA3] then true
    else if 4 ≤ bytes.length ∧ (bytes.drop 4).take 4 = [0x66, 0x74, 0x79, 0x70] then true
    else decide (8000 < b.size)

/-! ## Backend selection: `createVoiceInputService` -/

/-- The constructed service, carrying the language passed to
`setLanguage` by the factory (and the API key for the cloud variant). -/
inductive VoiceService
  | browser (language : String)
  | openai (apiKey : String) (language : String)
deriving DecidableEq

/-- The error message thrown when no backend is usable. -/
def noServiceMsg : String :=
  "No speech recognition available: Browser does not support speech recognition and no OpenAI API key provided"

/-- `createVoiceInputService`: prefer the browser recognizer whenever
the platform exposes one; otherwise construct the OpenAI service when
an API key is configured (the key is falsy when absent); otherwise
throw. The chosen service gets the requested language. -/
def createVoiceInputService (browserSupported : Bool) (apiKey : String)
    (language : String) : Except String VoiceService :=
  if browserSupported then Except.ok (VoiceService.browser language)
  else if apiKey ≠ "" then Except.ok (VoiceService.openai apiKey language)
  else Except.error noServiceMsg

/-! ## Hook lifecycle: `startRecording` failure path and `stopRecording` -/

/-- Result of awaiting the backend's `startRecording`: success, or a
thrown error with its `name` and `message`. -/
inductive StartOutcome
  | success
  | failure (errName : String) (errMsg : String)
deriving DecidableEq

/-- The canonical hook's `startRecording`: reset the per-session state
and the cancellation flag, seed the delta baseline when configured,
create a fresh service, and either mark recording on success or, in the
catch block, classify the error as permission-specific
(`NotAllowedError` or a message mentioning the microphone) or generic,
setting the flags and firing `onError` once. -/
def hookStartRecording (mode : EmitMode) (baseline : Option String)
    (s : HookState) (o : StartOutcome) : HookState :=
  let s0 := { s with
    error := none
    permissionDenied := false
    transcription := ""
    interimTranscription := ""
    cancelled := false }
  let s1 := if mode = .delta then
      match baseline with
      | some b => if b.trim ≠ "" then { s0 with processed := b.trim } else s0
      | none => s0
    else s0
  let s2 := { s1 with hasService := true }
  match o with
  | .success => { s2 with isRecording := true }
  | .failure name msg =>
    if name = "NotAllowedError" ∨ strContains msg "microphone" = true then
      { s2 with
        permissionDenied := true
        error := some "Microphone permission denied"
        errorOutputs := s2.errorOutputs ++ ["Microphone permission denied"] }
    else
      { s2 with
        error := some "Failed to start recording"
        errorOutputs := s2.errorOutputs ++ ["Failed to start recording"] }

/-- Result of awaiting the backend's `stopRecording`. -/
inductive StopOutcome
  | ok
  | threw
deriving DecidableEq

/-- The canonical hook's `stopRecording`: a no-op without a live
service or while not recording; otherwise the cancellation flag is set
before the asynchronous stop, and a throwing stop reports the error
while a clean stop clears `isRecording`. -/
def hookStopRecording (s : HookState) (cancelled : Bool) (o : StopOutcome) : HookState :=
  if s.hasService = false ∨ s.isRecording = false then s
  else
    let s1 := { s with cancelled := cancelled }
    match o with
    | .ok => { s1 with isRecording := false }
    | .threw =>
      { s1 with
        error := some "Failed to stop recording"
        errorOutputs := s1.errorOutputs ++ ["Failed to stop recording"] }

/-! ## Helper lemmas -/

lemma append_ne_empty_of_right (a b : String) (h : b ≠ "") : a ++ b ≠ "" := by
  intro he
  have hd : (a ++ b).data = ("" : String).data := by rw [he]
  simp [String.data_append] at hd
  exact h (String.ext hd.2)

lemma emitIf_mem {o : SegEvent} {d : String} {fin : Bool} (h : o ∈ emitIf d fin) :
    o = ⟨d, fin⟩ ∧ d ≠ "" := by
  by_cases hd : d = "" <;> simp [emitIf, hd] at h
  exact ⟨h, hd⟩

lemma emitIf_filter_final (d : String) :
    (emitIf d true).filter (·.isFinal) = emitIf d true := by
  by_cases hd : d = "" <;> simp [emitIf, hd]

lemma emitIf_filter_interim (d : String) :
    (emitIf d false).filter (·.isFinal) = [] := by
  by_cases hd : d = "" <;> simp [emitIf, hd]

lemma canonicalCallback_of_cancelled (mode : EmitMode) (s : HookState) (e : SegEvent)
    (h : s.cancelled = true) : canonicalCallback mode s e = s := by
  simp [canonicalCallback, h]

lemma canonicalRun_of_cancelled (mode : EmitMode) (es : List SegEvent)
    (s : HookState) (h : s.cancelled = true) : canonicalRun mode s es = s := by
  induction es with
  | nil => rfl
  | cons e es ih =>
    show canonicalRun mode (canonicalCallback mode s e) es = s
    rw [canonicalCallback_of_cancelled mode s e h]
    exact ih

lemma joinSeg_empty_left (t : String) : joinSeg "" t = t := by
  simp [joinSeg, sepFor]

lemma variantCallback_cancelled (mode : EmitMode) (s : VHookState) (e : SegEvent) :
    (variantCallback mode s e).cancelled = s.cancelled := by
  by_cases h : s.cancelled = true
  · simp [variantCallback, h]
  · simp only [Bool.not_eq_true] at h
    by_cases hf : e.isFinal = true <;>
      simp [variantCallback, h, hf]

lemma variantCallback_history (mode : EmitMode) (s : VHookState) (e : SegEvent)
    (h : s.cancelled = false) :
    (variantCallback mode s e).history =
      if e.isFinal then joinSeg s.history e.text else s.history := by
  by_cases hf : e.isFinal = true <;>
    simp [variantCallback, joinSeg, h, hf]

lemma variantRun_history (es : List SegEvent) :
    ∀ s : VHookState, s.cancelled = false →
      (variantRun .full s es).history =
        es.foldl (fun h e => if e.isFinal then joinSeg h e.text else h) s.history := by
  induction es with
  | nil => intro s _; rfl
  | cons e es ih =>
    intro s h
    show (variantRun .full (variantCallback .full s e) es).history = _
    rw [ih (variantCallback .full s e)
        (by rw [variantCallback_cancelled]; exact h),
      variantCallback_history .full s e h]
    rfl

lemma foldl_filter_join (es : List SegEvent) :
    ∀ h0 : String,
      ((es.filter (·.isFinal)).foldl (fun h e => joinSeg h e.text) h0) =
        es.foldl (fun h e => if e.isFinal then joinSeg h e.text else h) h0 := by
  induction es with
  | nil => intro h0; rfl
  | cons e es ih =>
    intro h0
    by_cases hf : e.isFinal = true <;> simp [List.filter, hf, ih]

lemma variant_interim_run (ts : List String) :
    ∀ s : VHookState, s.cancelled = false →
      (variantRun .full s (ts.map fun t => SegEvent.mk t false)).history = s.history
      ∧ (variantRun .full s (ts.map fun t => SegEvent.mk t false)).cancelled = false
      ∧ ((variantRun .full s
            (ts.map fun t => SegEvent.mk t false)).outputs.filter (·.isFinal))
          = s.outputs.filter (·.isFinal) := by
  induction ts with
  | nil => intro s h; exact ⟨rfl, h, rfl⟩
  | cons t ts ih =>
    intro s h
    have hstep : variantCallback .full s ⟨t, false⟩ =
        { s with
          interimTranscription := t
          outputs := s.outputs ++
            emitIf (s.history ++ sepFor s.history t ++ t) false } := by
      simp [variantCallback, h]
    have hcons : variantRun .full s ((t :: ts).map fun u => SegEvent.mk u false)
        = variantRun .full (variantCallback .full s ⟨t, false⟩)
            (ts.map fun u => SegEvent.mk u false) := rfl
    obtain ⟨i1, i2, i3⟩ := ih (variantCallback .full s ⟨t, false⟩)
      (by rw [variantCallback_cancelled]; exact h)
    rw [hstep] at i1 i2 i3
    refine ⟨?_, ?_, ?_⟩
    · rw [hcons, hstep]; exact i1
    · rw [hcons, hstep]; exact i2
    · rw [hcons, hstep, i3]
      simp [List.filter_append, emitIf_filter_interim]

lemma variantCallback_final_full (s : VHookState) (t : String) (h : s.cancelled = false) :
    (variantCallback .full s ⟨t, true⟩).history = joinSeg s.history t
    ∧ (variantCallback .full s ⟨t, true⟩).outputs
        = s.outputs ++ emitIf (joinSeg s.history t) true := by
  constructor <;> simp [variantCallback, joinSeg, h]

/-! ## C1: full-mode final text is the space-joined finalized segments -/

/-- C1. In `full` emission mode, for a session consisting of any
interim segments followed by one final segment, the reconciler's
final-flagged reports carry exactly the concatenation of the finalized
segments, and its accumulated text equals that concatenation —
independent of how many interim updates preceded the final segment.
In general (third conjunct), after any event sequence the accumulated
text is the concatenation of all finalized segments joined with a
single space where needed. -/
theorem full_mode_final_text_is_joined_finals (ts : List String) (s : String) :
    ((variantRun .full variantInit
        ((ts.map fun t => SegEvent.mk t false) ++ [⟨s, true⟩])).outputs.filter (·.isFinal)
      = if s = "" then [] else [⟨s, true⟩])
    ∧ (variantRun .full variantInit
        ((ts.map fun t => SegEvent.mk t false) ++ [⟨s, true⟩])).history = s
    ∧ ∀ es : List SegEvent, (variantRun .full variantInit es).history = joinAll es := by
  obtain ⟨hh, hc, ho⟩ := variant_interim_run ts variantInit rfl
  have hrun : variantRun .full variantInit
      ((ts.map fun t => SegEvent.mk t false) ++ [⟨s, true⟩])
      = variantCallback .full
          (variantRun .full variantInit (ts.map fun t => SegEvent.mk t false))
          ⟨s, true⟩ := by
    simp [variantRun, List.foldl_append]
  obtain ⟨hH, hO⟩ := variantCallback_final_full
    (variantRun .full variantInit (ts.map fun t => SegEvent.mk t false)) s hc
  have hjoin : joinSeg
      (variantRun .full variantInit (ts.map fun t => SegEvent.mk t false)).history s
      = s := by
    rw [hh]
    exact joinSeg_empty_left s
  refine ⟨?_, ?_, ?_⟩
  · rw [hrun, hO, List.filter_append, ho, hjoin]
    by_cases hs : s = "" <;> simp [variantInit, emitIf, hs]
  · rw [hrun, hH, hjoin]
  · intro es
    rw [variantRun_history es variantInit rfl, joinAll, foldl_filter_join]
    rfl

/-! ## C3: cancellation suppresses all further consumer updates -/

/-- C3. Once a recording session is stopped with `stopRecording(true)`,
the cancellation flag set before the asynchronous stop guarantees that
no subsequent backend segment event — buffered or late — produces an
`onTranscriptionUpdate` invocation: the output log never grows again,
whatever the stop outcome and emission mode. -/
theorem cancellation_suppresses_updates (s : HookState) (o : StopOutcome)
    (mode : EmitMode) (es : List SegEvent)
    (h1 : s.hasService = true) (h2 : s.isRecording = true) :
    (canonicalRun mode (hookStopRecording s true o) es).outputs
      = (hookStopRecording s true o).outputs := by
  have hc : (hookStopRecording s true o).cancelled = true := by
    cases o <;> simp [hookStopRecording, h1, h2]
  rw [canonicalRun_of_cancelled mode es _ hc]

/-- Witness for C3 at a concrete recording state and a buffered event
arriving after the cancelled stop. -/
theorem cancellation_suppresses_updates_witness :
    (canonicalRun .full (hookStopRecording canonicalInit true .ok)
        [⟨"late buffered text", true⟩]).outputs
      = (hookStopRecording canonicalInit true .ok).outputs :=
  cancellation_suppresses_updates canonicalInit .ok .full
    [⟨"late buffered text", true⟩] rfl rfl

/-! ## C7: delta mode reports the prefix-comparison delta -/

/-- C7. In `delta` emission mode, each event is reported by prefix
comparison against the last-reported text: when the new text extends it
as a prefix only the remainder is emitted, otherwise the whole new text
is, with nothing emitted when the computed delta is empty; the
last-reported text becomes the new text on both interim and final
events. -/
theorem delta_mode_prefix_delta (s : HookState) (e : SegEvent)
    (h : s.cancelled = false) :
    ((canonicalCallback .delta s e).outputs
      = s.outputs ++
        emitIf
          (if e.text.startsWith s.processed
           then e.text.drop s.processed.length else e.text)
          e.isFinal)
    ∧ (canonicalCallback .delta s e).processed = e.text := by
  by_cases hf : e.isFinal = true <;>
    simp [canonicalCallback, h, hf]

/-- Witness for C7: a non-cancelled state whose last-reported text
`"hello"` is extended by the event text `"hello world"`. -/
theorem delta_mode_prefix_delta_witness :
    ((canonicalCallback .delta { canonicalInit with processed := "hello" }
        ⟨"hello world", true⟩).outputs
      = [] ++
        emitIf
          (if ("hello world").startsWith "hello"
           then ("hello world").drop ("hello").length else "hello world")
          true)
    ∧ (canonicalCallback .delta { canonicalInit with processed := "hello" }
        ⟨"hello world", true⟩).processed = "hello world" :=
  delta_mode_prefix_delta { canonicalInit with processed := "hello" }
    ⟨"hello world", true⟩ rfl

/-! ## C2: restarts are capped at 10 per session -/

lemma countRestarts_le (es : List RecEvent) :
    ∀ s : BrowserState, countRestarts s es ≤ maxRestarts - s.restartCount := by
  induction es with
  | nil => intro s; simp [countRestarts]
  | cons e es ih =>
    intro s
    cases e with
    | aborted =>
      have : countRestarts s (.aborted :: es) = countRestarts s es := by
        simp [countRestarts, handleRecEvent]
      rw [this]; exact ih s
    | noSpeech =>
      by_cases hcond : s.isCurrentlyRecording = true ∧ s.restartCount < maxRestarts
      · have hstep : handleRecEvent s .noSpeech =
            ({ s with restartCount := s.restartCount + 1 }, true) := by
          simp [handleRecEvent, hcond]
        have : countRestarts s (.noSpeech :: es)
            = 1 + countRestarts { s with restartCount := s.restartCount + 1 } es := by
          simp [countRestarts, hstep]
        rw [this]
        have h2 := ih { s with restartCount := s.restartCount + 1 }
        simp only at h2
        omega
      · have hstep : handleRecEvent s .noSpeech = (s, false) := by
          simp [handleRecEvent, hcond]
        have : countRestarts s (.noSpeech :: es) = countRestarts s es := by
          simp [countRestarts, hstep]
        rw [this]; exact ih s
    | otherError =>
      by_cases hcond : s.isCurrentlyRecording = true ∧ s.restartCount < maxRestarts
      · have hstep : handleRecEvent s .otherError =
            ({ s with restartCount := s.restartCount + 1 }, true) := by
          simp [handleRecEvent, hcond]
        have : countRestarts s (.otherError :: es)
            = 1 + countRestarts { s with restartCount := s.restartCount + 1 } es := by
          simp [countRestarts, hstep]
        rw [this]
        have h2 := ih { s with restartCount := s.restartCount + 1 }
        simp only at h2
        omega
      · have hstep : handleRecEvent s .otherError = (s, false) := by
          simp [handleRecEvent, hcond]
        have : countRestarts s (.otherError :: es) = countRestarts s es := by
          simp [countRestarts, hstep]
        rw [this]; exact ih s
    | ended =>
      by_cases hcond : s.isCurrentlyRecording = true ∧ s.restartCount < maxRestarts
      · have hstep : handleRecEvent s .ended =
            ({ s with restartCount := s.restartCount + 1 }, true) := by
          simp [handleRecEvent, hcond]
        have : countRestarts s (.ended :: es)
            = 1 + countRestarts { s with restartCount := s.restartCount + 1 } es := by
          simp [countRestarts, hstep]
        rw [this]
        have h2 := ih { s with restartCount := s.restartCount + 1 }
        simp only at h2
        omega
      · have hstep : handleRecEvent s .ended = (s, false) := by
          simp [handleRecEvent, hcond]
        have : countRestarts s (.ended :: es) = countRestarts s es := by
          simp [countRestarts, hstep]
        rw [this]; exact ih s

/-- C2. A session started by `startRecording` attempts at most 10
transient restarts, whatever lifecycle events the recognizer fires
(first conjunct); and once the restart counter has reached the cap of
10, no event — no-speech error, other error, or natural end — attempts
any further restart or changes the backend state (second conjunct). -/
theorem restart_cap_ten :
    (∀ (s : BrowserState) (es : List RecEvent),
      countRestarts (browserStartRecording s) es ≤ 10)
    ∧ ∀ (s : BrowserState) (e : RecEvent),
        maxRestarts ≤ s.restartCount → handleRecEvent s e = (s, false) := by
  constructor
  · intro s es
    have := countRestarts_le es (browserStartRecording s)
    simpa [browserStartRecording, maxRestarts] using this
  · intro s e h
    cases e <;> simp [handleRecEvent] <;> omega

/-- Witness for C2: a 12-event trace of natural ends attempts no more
than 10 restarts, and an eleventh restart is refused at the cap. -/
theorem restart_cap_ten_witness :
    countRestarts (browserStartRecording ⟨true, "", 0, "auto"⟩)
        (List.replicate 12 .ended) ≤ 10
    ∧ handleRecEvent ⟨true, "x", 10, "auto"⟩ .noSpeech = (⟨true, "x", 10, "auto"⟩, false) :=
  ⟨restart_cap_ten.1 ⟨true, "", 0, "auto"⟩ (List.replicate 12 .ended),
    restart_cap_ten.2 ⟨true, "x", 10, "auto"⟩ .noSpeech (by decide)⟩

/-! ## C4: cloud-session deduplication of transcripts -/

/-- How many times the cloud backend's callback has fired with a given
transcript. -/
def countOutputs (s : OpenAIState) (t : String) : Nat :=
  (s.outputs.filter (fun o => decide (o.text = t))).length

lemma handleTranscript_preserves_dedup (t : String) (s : OpenAIState) (u : String)
    (h1 : countOutputs s t ≤ 1)
    (h2 : t ∉ s.processedTranscriptions → countOutputs s t = 0) :
    countOutputs (handleTranscript s u) t ≤ 1
    ∧ (t ∉ (handleTranscript s u).processedTranscriptions →
        countOutputs (handleTranscript s u) t = 0) := by
  by_cases hb : u ≠ "" ∧ u.trim ≠ ""
  · by_cases hm : u ∈ s.processedTranscriptions
    · simp [handleTranscript, hb, hm]
      exact ⟨h1, h2⟩
    · have hrec : handleTranscript s u =
          { s with
            processedTranscriptions := u :: s.processedTranscriptions
            outputs := s.outputs ++ [⟨u, false⟩]
            finalTranscription := u } := by
        simp [handleTranscript, hb, hm]
      by_cases heq : u = t
      · subst heq
        have h0 : countOutputs s u = 0 := h2 hm
        have hcount : countOutputs (handleTranscript s u) u = countOutputs s u + 1 := by
          rw [hrec]
          simp [countOutputs, List.filter_append]
        constructor
        · rw [hcount, h0]
        · intro hnot
          exact absurd (by rw [hrec]; simp) hnot
      · have hcount : countOutputs (handleTranscript s u) t = countOutputs s t := by
          rw [hrec]
          simp [countOutputs, List.filter_append, heq]
        constructor
        · rw [hcount]; exact h1
        · intro hnot
          have hnot2 : t ∉ s.processedTranscriptions := fun hm2 =>
            hnot (by rw [hrec]; simp [hm2])
          rw [hcount]
          exact h2 hnot2
  · simp [handleTranscript, hb]
    exact ⟨h1, h2⟩

lemma runTranscripts_dedup (t : String) (ts : List String) :
    ∀ s : OpenAIState, countOutputs s t ≤ 1 →
      (t ∉ s.processedTranscriptions → countOutputs s t = 0) →
      countOutputs (ts.foldl handleTranscript s) t ≤ 1 := by
  induction ts with
  | nil => intro s h1 _; exact h1
  | cons u ts ih =>
    intro s h1 h2
    obtain ⟨g1, g2⟩ := handleTranscript_preserves_dedup t s u h1 h2
    exact ih (handleTranscript s u) g1 g2

/-- C4. The cloud backend deduplicates transcripts within a session:
submitting a transcript already in the processed set leaves the state
untouched without invoking the callback (first conjunct); over any
session the callback fires at most once per distinct transcript string
(second conjunct); and the processed-transcript set is cleared by
`startRecording` at the start of each session (third conjunct). -/
theorem cloud_session_dedup :
    (∀ (s : OpenAIState) (t : String),
      t ∈ s.processedTranscriptions → handleTranscript s t = s)
    ∧ (∀ (ts : List String) (t : String),
        countOutputs (ts.foldl handleTranscript openAIInit) t ≤ 1)
    ∧ ∀ s : OpenAIState, (openAISessionStart s).processedTranscriptions = [] := by
  refine ⟨?_, ?_, ?_⟩
  · intro s t hm
    by_cases hb : t ≠ "" ∧ t.trim ≠ "" <;> simp [handleTranscript, hb, hm]
  · intro ts t
    refine runTranscripts_dedup t ts openAIInit ?_ ?_ <;>
      simp [openAIInit, openAISessionStart, countOutputs]
  · intro s
    rfl

/-- Witness for C4: the spec's scenario — the identical transcript
twice in one session fires the callback exactly once — plus a concrete
duplicate discarded from a state that has already processed it. -/
theorem cloud_session_dedup_witness :
    handleTranscript
        { openAIInit with processedTranscriptions := ["testing one two"] }
        "testing one two"
      = { openAIInit with processedTranscriptions := ["testing one two"] }
    ∧ countOutputs
        (["testing one two", "testing one two"].foldl handleTranscript openAIInit)
        "testing one two" ≤ 1 :=
  ⟨cloud_session_dedup.1 _ "testing one two" (by simp),
    cloud_session_dedup.2.1 ["testing one two", "testing one two"] "testing one two"⟩

/-! ## C5 and C6: chunk gating and validation in the cloud backend -/

lemma transcribeAudio_counter (s : OpenAIState) (b : Blob) (r : FetchOutcome) :
    (transcribeAudio s b r).chunkCounter = s.chunkCounter + 1 := by
  simp only [transcribeAudio, tryOpenAITranscription, handleTranscript]
  repeat' split
  all_goals rfl

lemma transcribeAudio_errors (s : OpenAIState) (b : Blob) (r : FetchOutcome) :
    (transcribeAudio s b r).errors = s.errors := by
  simp only [transcribeAudio, tryOpenAITranscription, handleTranscript]
  repeat' split
  all_goals rfl

lemma transcribeAudio_recording (s : OpenAIState) (b : Blob) (r : FetchOutcome) :
    (transcribeAudio s b r).isCurrentlyRecording = s.isCurrentlyRecording := by
  simp only [transcribeAudio, tryOpenAITranscription, handleTranscript]
  repeat' split
  all_goals rfl

lemma transcribeAudio_submissions_late (s : OpenAIState) (b : Blob) (r : FetchOutcome)
    (h : 1 ≤ s.chunkCounter) :
    (transcribeAudio s b r).submissions = s.submissions := by
  simp only [transcribeAudio, tryOpenAITranscription, handleTranscript]
  repeat' split
  all_goals (try rfl)
  all_goals (exfalso; omega)

lemma transcribeAudio_submissions_first (s : OpenAIState) (b : Blob) (r : FetchOutcome)
    (h : s.chunkCounter = 0) :
    (transcribeAudio s b r).submissions
      = s.submissions ++ (if validChunk b then [b] else []) := by
  by_cases hsz : b.size < 10000
  · have hv : validChunk b = false := by simp [validChunk]; omega
    simp [transcribeAudio, hsz, hv]
  · by_cases hm : mimeRecognized b.mimeType = false
    · have hv : validChunk b = false := by simp [validChunk, hm]
      simp [transcribeAudio, hsz, hm, hv]
    · simp only [Bool.not_eq_false] at hm
      have hv : validChunk b = true := by simp [validChunk, hm]; omega
      simp only [transcribeAudio, tryOpenAITranscription, handleTranscript,
        hsz, if_false, hm, Bool.true_eq_false, h, hv, if_true]
      repeat' split
      all_goals simp

lemma runChunks_late (bs : List (Blob × FetchOutcome)) :
    ∀ s : OpenAIState, 1 ≤ s.chunkCounter →
      (runChunks s bs).submissions = s.submissions
      ∧ (runChunks s bs).errors = s.errors
      ∧ (runChunks s bs).isCurrentlyRecording = s.isCurrentlyRecording := by
  induction bs with
  | nil => intro s _; exact ⟨rfl, rfl, rfl⟩
  | cons p bs ih =>
    intro s h
    have hnext : 1 ≤ (transcribeAudio s p.1 p.2).chunkCounter := by
      rw [transcribeAudio_counter]; omega
    obtain ⟨g1, g2, g3⟩ := ih (transcribeAudio s p.1 p.2) hnext
    refine ⟨?_, ?_, ?_⟩
    · rw [show (runChunks s (p :: bs)) = runChunks (transcribeAudio s p.1 p.2) bs from rfl,
        g1, transcribeAudio_submissions_late s p.1 p.2 h]
    · rw [show (runChunks s (p :: bs)) = runChunks (transcribeAudio s p.1 p.2) bs from rfl,
        g2, transcribeAudio_errors]
    · rw [show (runChunks s (p :: bs)) = runChunks (transcribeAudio s p.1 p.2) bs from rfl,
        g3, transcribeAudio_recording]

/-- C5. In a cloud-backend session only the first emitted chunk is ever
submitted to the transcription API — and only when it passes
validation; every subsequent chunk of the same session is left
unsubmitted, while the session keeps recording and raises no error for
any of the skipped chunks. -/
theorem only_first_chunk_submitted (bs : List (Blob × FetchOutcome)) :
    ((runChunks openAIInit bs).submissions
      = match bs with
        | [] => []
        | p :: _ => if validChunk p.1 then [p.1] else [])
    ∧ (runChunks openAIInit bs).errors = []
    ∧ (runChunks openAIInit bs).isCurrentlyRecording = true := by
  cases bs with
  | nil => exact ⟨rfl, rfl, rfl⟩
  | cons p bs =>
    have h0 : openAIInit.chunkCounter = 0 := rfl
    have hfs := transcribeAudio_submissions_first openAIInit p.1 p.2 h0
    have hnext : 1 ≤ (transcribeAudio openAIInit p.1 p.2).chunkCounter := by
      rw [transcribeAudio_counter]; omega
    obtain ⟨g1, g2, g3⟩ := runChunks_late bs (transcribeAudio openAIInit p.1 p.2) hnext
    refine ⟨?_, ?_, ?_⟩
    · rw [show (runChunks openAIInit (p :: bs))
          = runChunks (transcribeAudio openAIInit p.1 p.2) bs from rfl, g1, hfs]
      simp [openAIInit, openAISessionStart]
    · rw [show (runChunks openAIInit (p :: bs))
          = runChunks (transcribeAudio openAIInit p.1 p.2) bs from rfl, g2,
        transcribeAudio_errors]
      rfl
    · rw [show (runChunks openAIInit (p :: bs))
          = runChunks (transcribeAudio openAIInit p.1 p.2) bs from rfl, g3,
        transcribeAudio_recording]
      rfl

lemma validateAudioBlob_of_large (b : Blob) (h : 10000 ≤ b.size) :
    validateAudioBlob b = true := by
  have hn : ¬ b.size < 1000 := by omega
  simp only [validateAudioBlob]
  rw [if_neg hn]
  split
  · rfl
  · split
    · rfl
    · exact decide_eq_true (by omega)

/-- C6. A chunk is submitted to the API only after passing validation:
any submission implies the chunk met the minimum byte-size threshold,
carried a recognized container type, and satisfies the
container-signature validator (first conjunct); and every failure path
of the transcribe call — non-2xx response, thrown fetch, malformed or
undersized chunk — is swallowed: the transcribe path never raises an
error to the caller (second conjunct, for every response outcome). -/
theorem chunk_validation_and_failures_swallowed :
    (∀ (s : OpenAIState) (b : Blob) (r : FetchOutcome),
      s.submissions.length < (transcribeAudio s b r).submissions.length →
      10000 ≤ b.size ∧ mimeRecognized b.mimeType = true ∧ validateAudioBlob b = true)
    ∧ ∀ (s : OpenAIState) (b : Blob) (r : FetchOutcome),
        (transcribeAudio s b r).errors = s.errors := by
  constructor
  · intro s b r hlt
    by_cases hsz : b.size < 10000
    · exfalso
      unfold transcribeAudio at hlt
      rw [if_pos hsz] at hlt
      exact absurd hlt (by simp)
    · by_cases hm : mimeRecognized b.mimeType = false
      · exfalso
        unfold transcribeAudio at hlt
        rw [if_neg hsz, if_pos hm] at hlt
        exact absurd hlt (by simp)
      · simp only [Bool.not_eq_false] at hm
        exact ⟨by omega, hm, validateAudioBlob_of_large b (by omega)⟩
  · exact transcribeAudio_errors

/-- Witness for C6 at a large well-typed chunk whose submission goes
through, and for the swallowed thrown-fetch outcome. -/
theorem chunk_validation_witness :
    (10000 ≤ (Blob.mk 20000 "audio/webm" []).size
      ∧ mimeRecognized "audio/webm" = true
      ∧ validateAudioBlob (Blob.mk 20000 "audio/webm" []) = true)
    ∧ (transcribeAudio openAIInit (Blob.mk 20000 "audio/webm" []) .threw).errors
        = openAIInit.errors :=
  ⟨chunk_validation_and_failures_swallowed.1 openAIInit
      (Blob.mk 20000 "audio/webm" []) .threw (by decide),
    chunk_validation_and_failures_swallowed.2 openAIInit
      (Blob.mk 20000 "audio/webm" []) .threw⟩

/-! ## C8: backend selection is a pure capability decision -/

/-- C8. Backend selection decides purely over the two capability
inputs: whenever the platform exposes the on-device recognizer it is
chosen, regardless of any API key; otherwise a present (nonempty) cloud
credential yields the cloud backend; with neither, session start fails
with the capability-unavailable error. In the two success cases the
returned service carries the requested language. -/
theorem backend_selection_pure_decision :
    (∀ key lang : String,
      createVoiceInputService true key lang = .ok (.browser lang))
    ∧ (∀ key lang : String, key ≠ "" →
        createVoiceInputService false key lang = .ok (.openai key lang))
    ∧ ∀ lang : String,
        createVoiceInputService false "" lang = .error noServiceMsg := by
  refine ⟨?_, ?_, ?_⟩
  · intro key lang
    rfl
  · intro key lang hk
    simp [createVoiceInputService, hk]
  · intro lang
    rfl

/-- Witness for C8 with a concrete nonempty credential. -/
theorem backend_selection_pure_decision_witness :
    createVoiceInputService false "sk-key" "fr" = .ok (.openai "sk-key" "fr") :=
  backend_selection_pure_decision.2.1 "sk-key" "fr" (by decide)

/-! ## C9: permission-denied start failure -/

/-- C9. When `startRecording` fails with the microphone-permission
denial (`NotAllowedError`), the hook sets `permissionDenied`, stores
and fires the permission-specific message exactly once, leaves
`isRecording` false, and the component remains usable: a following
successful `startRecording` from the failed state records again. -/
theorem permission_denied_start_failure (s : HookState) (mode : EmitMode)
    (b : Option String) (msg : String) (h : s.isRecording = false) :
    ((hookStartRecording mode b s (.failure "NotAllowedError" msg)).permissionDenied = true)
    ∧ (hookStartRecording mode b s (.failure "NotAllowedError" msg)).error
        = some "Microphone permission denied"
    ∧ (hookStartRecording mode b s (.failure "NotAllowedError" msg)).errorOutputs
        = s.errorOutputs ++ ["Microphone permission denied"]
    ∧ (hookStartRecording mode b s (.failure "NotAllowedError" msg)).isRecording = false
    ∧ (hookStartRecording mode b
        (hookStartRecording mode b s (.failure "NotAllowedError" msg)) .success).isRecording
        = true := by
  have hcase : ∀ s2 : HookState,
      (hookStartRecording mode b s2 (.failure "NotAllowedError" msg)).permissionDenied = true
      ∧ (hookStartRecording mode b s2 (.failure "NotAllowedError" msg)).error
          = some "Microphone permission denied"
      ∧ (hookStartRecording mode b s2 (.failure "NotAllowedError" msg)).errorOutputs
          = s2.errorOutputs ++ ["Microphone permission denied"]
      ∧ (hookStartRecording mode b s2 (.failure "NotAllowedError" msg)).isRecording
          = s2.isRecording := by
    intro s2
    cases b with
    | none =>
      by_cases hm : mode = .delta <;>
        simp [hookStartRecording, hm]
    | some bt =>
      by_cases hm : mode = .delta
      · by_cases hb : bt.trim ≠ "" <;>
          simp [hookStartRecording, hm, hb]
      · simp [hookStartRecording, hm]
  obtain ⟨g1, g2, g3, g4⟩ := hcase s
  refine ⟨g1, g2, g3, g4.trans h, ?_⟩
  cases b with
  | none =>
    by_cases hm : mode = .delta <;>
      simp [hookStartRecording, hm]
  | some bt =>
    by_cases hm : mode = .delta
    · by_cases hb : bt.trim ≠ "" <;>
        simp [hookStartRecording, hm, hb]
    · simp [hookStartRecording, hm]

/-- Witness for C9 from the idle initial hook state. -/
theorem permission_denied_start_failure_witness :
    ((hookStartRecording .full none { canonicalInit with isRecording := false }
        (.failure "NotAllowedError" "Permission denied")).permissionDenied = true)
    ∧ (hookStartRecording .full none { canonicalInit with isRecording := false }
        (.failure "NotAllowedError" "Permission denied")).error
        = some "Microphone permission denied"
    ∧ (hookStartRecording .full none { canonicalInit with isRecording := false }
        (.failure "NotAllowedError" "Permission denied")).errorOutputs
        = ({ canonicalInit with isRecording := false } : HookState).errorOutputs
            ++ ["Microphone permission denied"]
    ∧ (hookStartRecording .full none { canonicalInit with isRecording := false }
        (.failure "NotAllowedError" "Permission denied")).isRecording = false
    ∧ (hookStartRecording .full none
        (hookStartRecording .full none { canonicalInit with isRecording := false }
          (.failure "NotAllowedError" "Permission denied")) .success).isRecording = true :=
  permission_denied_start_failure { canonicalInit with isRecording := false }
    .full none "Permission denied" rfl

/-! ## C10: the consumer callback never receives the empty string -/

lemma emitIf_text_ne {o : SegEvent} {d : String} {fin : Bool}
    (h : o ∈ emitIf d fin) : o.text ≠ "" := by
  obtain ⟨he, hd⟩ := emitIf_mem h
  rw [he]
  exact hd

lemma canonicalCallback_outputs_mem (mode : EmitMode) (s : HookState) (e : SegEvent)
    (o : SegEvent) (ho : o ∈ (canonicalCallback mode s e).outputs) :
    o ∈ s.outputs ∨ o.text ≠ "" := by
  by_cases hc : s.cancelled = true
  · rw [canonicalCallback_of_cancelled _ _ _ hc] at ho
    exact .inl ho
  · simp only [Bool.not_eq_true] at hc
    by_cases hf : e.isFinal = true <;>
      [skip; simp only [Bool.not_eq_true] at hf] <;>
      · simp only [canonicalCallback, hc, hf, Bool.false_eq_true, if_true, if_false,
          List.mem_append] at ho
        rcases ho with ho | ho
        · exact .inl ho
        · exact .inr (emitIf_text_ne ho)

lemma canonicalRun_outputs_ne (mode : EmitMode) (es : List SegEvent) :
    ∀ s : HookState, (∀ o ∈ s.outputs, o.text ≠ "") →
      ∀ o ∈ (canonicalRun mode s es).outputs, o.text ≠ "" := by
  induction es with
  | nil => intro s h; exact h
  | cons e es ih =>
    intro s h
    refine ih (canonicalCallback mode s e) ?_
    intro o ho
    rcases canonicalCallback_outputs_mem mode s e o ho with hm | hm
    · exact h o hm
    · exact hm

lemma variantCallback_of_cancelled (mode : EmitMode) (s : VHookState) (e : SegEvent)
    (h : s.cancelled = true) : variantCallback mode s e = s := by
  simp [variantCallback, h]

lemma variantCallback_outputs_mem (mode : EmitMode) (s : VHookState) (e : SegEvent)
    (he : e.text ≠ "") (o : SegEvent) (ho : o ∈ (variantCallback mode s e).outputs) :
    o ∈ s.outputs ∨ o.text ≠ "" := by
  by_cases hc : s.cancelled = true
  · rw [variantCallback_of_cancelled _ _ _ hc] at ho
    exact .inl ho
  · simp only [Bool.not_eq_true] at hc
    by_cases hf : e.isFinal = true <;>
      [skip; simp only [Bool.not_eq_true] at hf] <;>
      · simp only [variantCallback, hc, hf, Bool.false_eq_true, if_true, if_false,
          List.mem_append] at ho
        rcases ho with ho | ho
        · exact .inl ho
        · by_cases hm : mode = .segment
          · simp only [hm, if_true, List.mem_singleton] at ho
            refine .inr ?_
            rw [ho]
            exact append_ne_empty_of_right _ _ he
          · simp only [hm, if_false] at ho
            exact .inr (emitIf_text_ne ho)

lemma variantRun_outputs_ne (mode : EmitMode) (es : List SegEvent) :
    ∀ s : VHookState, (∀ e ∈ es, e.text ≠ "") → (∀ o ∈ s.outputs, o.text ≠ "") →
      ∀ o ∈ (variantRun mode s es).outputs, o.text ≠ "" := by
  induction es with
  | nil => intro s _ h; exact h
  | cons e es ih =>
    intro s hes h
    refine ih (variantCallback mode s e) (fun u hu => hes u (.tail e hu)) ?_
    intro o ho
    rcases variantCallback_outputs_mem mode s e (hes e (.head es)) o ho with hm | hm
    · exact h o hm
    · exact hm

lemma handleTranscript_outputs_mem (s : OpenAIState) (t : String) (o : SegEvent)
    (ho : o ∈ (handleTranscript s t).outputs) : o ∈ s.outputs ∨ o.text ≠ "" := by
  by_cases hb : t ≠ "" ∧ t.trim ≠ ""
  · by_cases hm : t ∈ s.processedTranscriptions
    · have hrec : handleTranscript s t = s := by simp [handleTranscript, hb, hm]
      rw [hrec] at ho
      exact .inl ho
    · have hrec : handleTranscript s t =
          { s with
            processedTranscriptions := t :: s.processedTranscriptions
            outputs := s.outputs ++ [⟨t, false⟩]
            finalTranscription := t } := by
        simp [handleTranscript, hb, hm]
      rw [hrec] at ho
      simp only [List.mem_append, List.mem_singleton] at ho
      rcases ho with ho | ho
      · exact .inl ho
      · refine .inr ?_
        rw [ho]
        exact hb.1
  · have hrec : handleTranscript s t = s := by simp [handleTranscript, hb]
    rw [hrec] at ho
    exact .inl ho

/-- C10. The reconciler never hands the consumer the empty string: in
every emission mode, over any event sequence, every
`onTranscriptionUpdate` invocation of the canonical hook carries
nonempty text (an event with empty computed delta only updates internal
state), and likewise for the variant hook on the events the backends
can actually deliver; and indeed both backends only deliver events with
nonempty text — the browser handler's truthiness guards and the cloud
handler's trim guard see to it. -/
theorem no_empty_string_updates :
    (∀ (mode : EmitMode) (es : List SegEvent),
      ∀ o ∈ (canonicalRun mode canonicalInit es).outputs, o.text ≠ "")
    ∧ (∀ (mode : EmitMode) (es : List SegEvent), (∀ e ∈ es, e.text ≠ "") →
        ∀ o ∈ (variantRun mode variantInit es).outputs, o.text ≠ "")
    ∧ (∀ (s : BrowserState) (rs : List (String × Bool)),
        ∀ ev ∈ (browserOnResult s rs).2, ev.text ≠ "")
    ∧ ∀ (s : OpenAIState) (t : String),
        ∀ o ∈ (handleTranscript s t).outputs, o ∈ s.outputs ∨ o.text ≠ "" := by
  refine ⟨?_, ?_, ?_, ?_⟩
  · intro mode es
    exact canonicalRun_outputs_ne mode es canonicalInit (by intro o ho; simp [canonicalInit] at ho)
  · intro mode es hes
    exact variantRun_outputs_ne mode es variantInit hes (by intro o ho; simp [variantInit] at ho)
  · intro s rs ev hev
    by_cases h1 : (collectResults rs).1 = ""
    · by_cases h2 : (collectResults rs).2 = ""
      · simp [browserOnResult, h1, h2] at hev
      · simp [browserOnResult, h1, h2] at hev
        rw [hev]
        exact append_ne_empty_of_right _ _ h2
    · by_cases h2 : (collectResults rs).2 = ""
      · simp [browserOnResult, h1, h2] at hev
        rw [hev]
        exact append_ne_empty_of_right _ _ h1
      · simp [browserOnResult, h1, h2] at hev
        rcases hev with hev | hev <;> rw [hev]
        · exact append_ne_empty_of_right _ _ h1
        · exact append_ne_empty_of_right _ _ h2
  · exact handleTranscript_outputs_mem

/-- Witness for C10: concrete instances of each guarded path — the
variant hook in segment mode on a nonempty final event, a late event
membership for the canonical hook, a browser result batch, and a cloud
transcript. -/
theorem no_empty_string_updates_witness :
    ((SegEvent.mk "hi" true).text ≠ ""
      ∧ (SegEvent.mk "hello world" true).text ≠ "")
    ∧ (SegEvent.mk "ok go" false).text ≠ ""
    ∧ ((SegEvent.mk "seen text" false) ∈
          ({ openAIInit with
              outputs := [⟨"seen text", false⟩] } : OpenAIState).outputs
        ∨ (SegEvent.mk "seen text" false).text ≠ "") := by
  refine ⟨⟨?_, ?_⟩, ?_, ?_⟩
  · exact no_empty_string_updates.2.1 .segment [⟨"hi", true⟩] (by decide)
      ⟨"hi", true⟩ (by decide)
  · exact no_empty_string_updates.1 .full [⟨"hello world", true⟩]
      ⟨"hello world", true⟩ (by decide)
  · exact no_empty_string_updates.2.2.1 ⟨true, "ok ", 0, "auto"⟩ [("go", false)]
      ⟨"ok go", false⟩ (by decide)
  · exact no_empty_string_updates.2.2.2
      { openAIInit with outputs := [⟨"seen text", false⟩] } ""
      ⟨"seen text", false⟩ (by decide)

end Voiceflow
